import Mathlib

/-!
Verification of the WebRTC screen-sharing / chat / file-transfer client
(`src/App.tsx`) against its natural-language specification.

The relevant handlers are shallowly embedded as pure Lean functions:
React `useState` / `useRef` cells become fields of explicit state records,
and each event handler becomes a state-transition function.  Byte buffers
(`ArrayBuffer`) are modelled as `List Nat`, and the sequence of completion
events (`setDownloadLink` calls) is recorded as an ever-growing log so that
"the completion event fires exactly once" is expressible as a length fact.
-/

namespace ScreenShare

/-- Metadata of a file transfer, as carried by a `file-meta` wire message
(`{type: "file-meta", name, size}` in `App.tsx`). -/
structure FileMeta where
  name : String
  size : Nat
deriving DecidableEq, Repr

/-- An inbound data-channel message, already classified the way
`handleDataChannelMessage` classifies it: a parsed JSON text frame of type
`chat`, a parsed JSON text frame of type `file-meta`, an unparseable plain
text frame (the `catch` fallback), or a raw binary frame. -/
inductive DCMessage where
  | chat (content : String)
  | fileMeta (meta : FileMeta)
  | plainText (s : String)
  | binary (chunk : List Nat)
deriving DecidableEq, Repr

/-- The receiver-side state touched by `handleDataChannelMessage`:
`receivedFileMeta`, `receivedFileChunksRef`, the chat log `messages`, and
the log of completion events.  In the source, `setDownloadLink` overwrites a
single cell; here every call is appended to `downloads` so that the number
of completion firings is observable.  The current download link of the UI
is the last element of `downloads`. -/
structure ReceiverState where
  meta : Option FileMeta
  chunks : List (List Nat)
  messages : List String
  downloads : List (String × List Nat)
deriving DecidableEq, Repr

/-- Initial receiver state: no file-meta seen, no chunks, empty logs. -/
def initReceiver : ReceiverState := ⟨none, [], [], []⟩

/-- Embedding of `handleDataChannelMessage` (App.tsx lines 165-202).
A `chat` frame appends to the chat log; a `file-meta` frame stores the
metadata and resets the chunk buffer; a binary frame is appended to the
chunk buffer only when a `file-meta` is in effect, and when the accumulated
byte count reaches the declared size the chunks are concatenated and a
download (completion event) is emitted.  Note that the source does NOT
reset `receivedFileMeta` after completion (the reset on line 198 is
commented out), and the chunk buffer is likewise kept. -/
def handleDataChannelMessage (st : ReceiverState) : DCMessage → ReceiverState
  | .chat c => { st with messages := st.messages ++ ["Peer: " ++ c] }
  | .fileMeta m =>
      { st with meta := some m, chunks := [],
                messages := st.messages ++
                  ["System: Receiving file " ++ m.name ++ " (" ++
                   toString m.size ++ " bytes)..."] }
  | .plainText s => { st with messages := st.messages ++ ["Peer: " ++ s] }
  | .binary b =>
      match st.meta with
      | none => st
      | some m =>
          let newChunks := st.chunks ++ [b]
          let totalReceived := (newChunks.map List.length).sum
          if m.size ≤ totalReceived then
            { st with chunks := newChunks,
                      downloads := st.downloads ++ [(m.name, newChunks.flatten)],
                      messages := st.messages ++
                        ["System: File " ++ m.name ++ " received."] }
          else
            { st with chunks := newChunks }

/-- Processing a sequence of inbound data-channel messages in arrival
order. -/
def processMessages (st : ReceiverState) (msgs : List DCMessage) : ReceiverState :=
  msgs.foldl handleDataChannelMessage st

example :
    (processMessages initReceiver
      [.fileMeta ⟨"a", 3⟩, .binary [1, 2], .binary [3]]).downloads
    = [("a", [1, 2, 3])] := by rfl

/-! ## Peer Connection Manager -/

/-- The WebRTC signaling states relevant to this client. -/
inductive SignalingState where
  | stable
  | haveLocalOffer
  | haveRemoteOffer
  | closed
deriving DecidableEq, Repr

/-- A peer connection as the manager sees it: a construction handle
(identifying the underlying `RTCPeerConnection` object), its signaling
state, and the remote description applied to it (an SDP string), if any. -/
structure PC where
  handle : Nat
  signalingState : SignalingState
  remoteDesc : Option String
deriving DecidableEq, Repr

/-- Association-list lookup over the `peerConnections` map
(`Map.get(targetUserId)`); entries are kept in insertion order, matching
JavaScript `Map` iteration order. -/
def findPC : List (String × PC) → String → Option PC
  | [], _ => none
  | (i, p) :: rest, id => if i = id then some p else findPC rest id

/-- A freshly constructed `RTCPeerConnection`: stable, no remote
description. -/
def newPC (h : Nat) : PC := ⟨h, .stable, none⟩

/-- State of the connection manager: the `peerConnections` map (insertion
order preserved) and a counter supplying the next construction handle. -/
structure ManagerState where
  conns : List (String × PC)
  nextHandle : Nat
deriving DecidableEq, Repr

/-- The empty manager state. -/
def initManager : ManagerState := ⟨[], 0⟩

/-- Embedding of `createPeerConnection` (App.tsx lines 204-257): if a
connection for `id` is already registered it is returned unchanged;
otherwise a new `RTCPeerConnection` is constructed and registered.  The
`Bool` component records whether a construction happened. -/
def createPeerConnection (st : ManagerState) (id : String) :
    PC × Bool × ManagerState :=
  match findPC st.conns id with
  | some pc => (pc, false, st)
  | none =>
      let pc := newPC st.nextHandle
      (pc, true, ⟨st.conns ++ [(id, pc)], st.nextHandle + 1⟩)

/-- Running a sequence of `createPeerConnection` requests; the second
component logs the ids for which a construction actually happened. -/
def runCreates (st : ManagerState) : List String → ManagerState × List String
  | [] => (st, [])
  | id :: rest =>
      let r := createPeerConnection st id
      let rec' := runCreates r.2.2 rest
      (rec'.1, (if r.2.1 then [id] else []) ++ rec'.2)

/-- Number of occurrences of `id` in a list of ids. -/
def countOcc (id : String) : List String → Nat
  | [] => 0
  | x :: rest => (if x = id then 1 else 0) + countOcc id rest

/-- Number of map entries keyed by `id`. -/
def countKey (id : String) : List (String × PC) → Nat
  | [] => 0
  | (i, _) :: rest => (if i = id then 1 else 0) + countKey id rest

/-- Applying an answer SDP as remote description to a connection that sent
an offer moves it from `have-local-offer` to `stable`
(`pc.setRemoteDescription(answer)`). -/
def setRemoteAnswer (pc : PC) (sdp : String) : PC :=
  { pc with signalingState := .stable, remoteDesc := some sdp }

/-- Applying the answer to the entry keyed `cid` in the map, leaving the
rest untouched. -/
def setAnswerFor (conns : List (String × PC)) (cid sdp : String) :
    List (String × PC) :=
  conns.map (fun e => if e.1 = cid then (e.1, setRemoteAnswer e.2 sdp) else e)

/-- Embedding of the fallback loop of `handleReceiveAnswer` (App.tsx lines
353-360): walk the tracked connections in insertion order, apply the
answer to the first one in `have-local-offer` state and stop (`break`). -/
def applyAnswerFallback (sdp : String) :
    List (String × PC) → List (String × PC)
  | [] => []
  | (i, p) :: rest =>
      if p.signalingState = .haveLocalOffer then
        (i, setRemoteAnswer p sdp) :: rest
      else
        (i, p) :: applyAnswerFallback sdp rest

/-- Embedding of `handleReceiveAnswer` (App.tsx lines 343-362).  The
payload's `callerId` may be absent (the app's own answers carry none), so
it is an `Option`; when the id resolves to a tracked connection the answer
is applied there, otherwise the fallback loop runs. -/
def handleReceiveAnswer (conns : List (String × PC)) (callerId : Option String)
    (sdp : String) : List (String × PC) :=
  match callerId with
  | some cid =>
      match findPC conns cid with
      | some _ => setAnswerFor conns cid sdp
      | none => applyAnswerFallback sdp conns
  | none => applyAnswerFallback sdp conns

/-! ## Session Controller -/

/-- An entry of the `update-user-list` payload: relay id plus address
label. -/
structure UserEntry where
  id : String
  ip : String
deriving DecidableEq, Repr

/-- Session-controller state: the working peer list `peersRef`, the
`isSharingRef` flag, the UI list `connectedUsers`, the status line, and a
log of `startCall` invocations (each entry is the target id of one call).
-/
structure SessionState where
  peers : List String
  isSharing : Bool
  connectedUsers : List UserEntry
  status : String
  calls : List String
deriving DecidableEq, Repr

/-- Initial session state. -/
def initSession : SessionState := ⟨[], false, [], "", []⟩

/-- Embedding of `handleUserConnected` (App.tsx lines 86-94): set the
status line, add the id to `peersRef` unless already present, and — while
sharing — call `startCall(userId)`.  Note the call is NOT guarded by the
membership test. -/
def handleUserConnected (st : SessionState) (userId : String) : SessionState :=
  let peersNew := if userId ∈ st.peers then st.peers else st.peers ++ [userId]
  let callsNew := if st.isSharing then st.calls ++ [userId] else st.calls
  { st with status := "User connected: " ++ userId,
            peers := peersNew, calls := callsNew }

/-- Embedding of `handleUserDisconnected` (App.tsx lines 96-99). -/
def handleUserDisconnected (st : SessionState) (userId : String) : SessionState :=
  { st with status := "User disconnected: " ++ userId,
            peers := st.peers.filter (fun id => id ≠ userId) }

/-- Embedding of `handleUpdateUserList` (App.tsx lines 106-115): the UI
list is replaced by the payload, and `peersRef` is wholesale replaced by
the payload's ids minus the local socket id. -/
def handleUpdateUserList (st : SessionState) (selfId : String)
    (users : List UserEntry) : SessionState :=
  { st with connectedUsers := users,
            peers := (users.filter (fun u => u.id ≠ selfId)).map UserEntry.id }

/-- Embedding of `startScreenShare` (App.tsx lines 259-292), with the
outcome of `getDisplayMedia` passed in as `acquired`.  Re-entrant calls
while already sharing are no-ops; on successful acquisition the sharing
flag is set and `startCall` is invoked for every currently known peer; on
failure only the status line changes. -/
def startScreenShare (st : SessionState) (acquired : Bool) : SessionState :=
  if st.isSharing then st
  else if acquired then
    { st with isSharing := true,
              status := if 0 < st.peers.length then
                  "Screen sharing started. Calling " ++
                    toString st.peers.length ++ " peers..."
                else "Screen sharing started. Waiting for peers to join...",
              calls := st.calls ++ st.peers }
  else { st with status := "Screen sharing failed" }

/-! ## Data-channel send side -/

/-- A data channel as the send side sees it: its `readyState` string and
the ordered log of frames handed to `send` (the outbox). -/
structure DataChannel where
  readyState : String
  outbox : List DCMessage
deriving DecidableEq, Repr

/-- Chat-composer state: the message log and the input box. -/
structure ChatState where
  messages : List String
  messageInput : String
deriving DecidableEq, Repr

/-- Embedding of `sendMessage` (App.tsx lines 387-401): the chat payload
is sent on every channel whose `readyState` is `"open"`; the `sent` flag
records whether at least one channel accepted it, and only then is the
message appended to the local log (as `Me: ...`) and the input cleared.
Returns (updated channels, updated chat state, `sent`). -/
def sendMessage (channels : List DataChannel) (st : ChatState) :
    List DataChannel × ChatState × Bool :=
  let channelsNew := channels.map (fun dc =>
    if dc.readyState = "open" then
      { dc with outbox := dc.outbox ++ [DCMessage.chat st.messageInput] }
    else dc)
  let sent := channels.any (fun dc => dc.readyState = "open")
  if sent then
    (channelsNew, ⟨st.messages ++ ["Me: " ++ st.messageInput], ""⟩, true)
  else
    (channelsNew, st, false)

/-- A file to send: its name and its bytes (in the source, `file.size`
and the contents of `file.arrayBuffer()` agree, so `size` is
`bytes.length`). -/
structure FileData where
  name : String
  bytes : List Nat
deriving DecidableEq, Repr

/-- Splitting a byte buffer into successive 16 KiB slices
(`buffer.slice(i, i + CHUNK_SIZE)` for `i = 0, 16384, 32768, ...`),
App.tsx lines 428-434. -/
def chunkFile : List Nat → List (List Nat)
  | [] => []
  | b :: rest =>
      (b :: rest).take 16384 :: chunkFile ((b :: rest).drop 16384)
termination_by bytes => bytes.length
decreasing_by
  simp only [List.length_drop, List.length_cons]
  omega

/-- Index of the first channel whose `readyState` is `"open"` (the search
loop of `sendFile`, App.tsx lines 405-411; JavaScript `Map` iterates in
insertion order). -/
def findFirstOpen : List DataChannel → Option Nat
  | [] => none
  | dc :: rest =>
      if dc.readyState = "open" then some 0
      else (findFirstOpen rest).map (· + 1)

/-- Append `frames` to the outbox of the channel at position `i`, leaving
every other channel untouched. -/
def pushFrames : List DataChannel → Nat → List DCMessage → List DataChannel
  | [], _, _ => []
  | dc :: rest, 0, frames => { dc with outbox := dc.outbox ++ frames } :: rest
  | dc :: rest, n + 1, frames => dc :: pushFrames rest n frames

/-- Result of a `sendFile` call: the channels (with updated outboxes), the
message log, and whether the "Connection not ready." alert fired. -/
structure SendFileResult where
  channels : List DataChannel
  messages : List String
  alerted : Bool
deriving DecidableEq, Repr

/-- The wire frames a file send produces: the `file-meta` text frame
followed by the binary chunks in order. -/
def sendFileFrames (f : FileData) : List DCMessage :=
  DCMessage.fileMeta ⟨f.name, f.bytes.length⟩ ::
    (chunkFile f.bytes).map DCMessage.binary

/-- Embedding of `sendFile` (App.tsx lines 403-437): if no channel is
open, alert "Connection not ready." and do nothing else; otherwise send
the metadata frame and then the 16 KiB chunks on the first open channel
only, logging the two `Me: ...` lines around the chunk loop. -/
def sendFile (channels : List DataChannel) (messages : List String)
    (f : FileData) : SendFileResult :=
  match findFirstOpen channels with
  | none => ⟨channels, messages, true⟩
  | some i =>
      let channels1 :=
        pushFrames channels i [DCMessage.fileMeta ⟨f.name, f.bytes.length⟩]
      let messages1 := messages ++ ["Me: Sending file " ++ f.name ++ "..."]
      let channels2 :=
        pushFrames channels1 i ((chunkFile f.bytes).map DCMessage.binary)
      ⟨channels2, messages1 ++ ["Me: File sent."], false⟩

/-! ## Helper lemmas: receiver protocol -/

lemma sum_lengths_pos (cs : List (List Nat)) (hne : cs ≠ [])
    (hpos : ∀ c ∈ cs, c ≠ []) : 1 ≤ (cs.map List.length).sum := by
  cases cs with
  | nil => cases hne rfl
  | cons c rest =>
      have hc : c ≠ [] := hpos c (by simp)
      have : 0 < c.length := List.length_pos.mpr hc
      simp only [List.map_cons, List.sum_cons]
      omega

/-- Receiving binary frames with a `file-meta` in effect: as long as the
accumulated bytes stay strictly below the declared size no completion
fires, and the frame on which the total first reaches the size emits
exactly one completion carrying the concatenation of all chunks. -/
lemma processBinary_completes :
    ∀ (cs : List (List Nat)) (st : ReceiverState) (m : FileMeta),
      st.meta = some m → cs ≠ [] → (∀ c ∈ cs, c ≠ []) →
      (st.chunks.map List.length).sum + (cs.map List.length).sum = m.size →
      (processMessages st (cs.map DCMessage.binary)).downloads
        = st.downloads ++ [(m.name, (st.chunks ++ cs).flatten)] := by
  intro cs
  induction cs with
  | nil => intro st m _ hne; cases hne rfl
  | cons c rest ih =>
      intro st m hm _ hpos hsum
      simp only [List.map_cons, processMessages, List.foldl_cons]
      by_cases hr : rest = []
      · subst hr
        have hfire : m.size ≤ ((st.chunks ++ [c]).map List.length).sum := by
          simp only [List.map_cons, List.sum_cons, List.map_nil,
            List.sum_nil] at hsum
          simp only [List.map_append, List.sum_append, List.map_cons,
            List.sum_cons, List.map_nil, List.sum_nil]
          omega
        simp only [handleDataChannelMessage, hm, if_pos hfire,
          List.map_nil, List.foldl_nil]
      · have hrest : 1 ≤ ((rest.map List.length).sum) :=
          sum_lengths_pos rest hr (fun x hx => hpos x (by simp [hx]))
        have hnofire : ¬ m.size ≤ ((st.chunks ++ [c]).map List.length).sum := by
          simp only [List.map_cons, List.sum_cons] at hsum
          simp only [List.map_append, List.sum_append, List.map_cons,
            List.sum_cons, List.map_nil, List.sum_nil]
          omega
        simp only [handleDataChannelMessage, hm, if_neg hnofire]
        have := ih { st with chunks := st.chunks ++ [c] } m hm hr
          (fun x hx => hpos x (by simp [hx]))
          (by show ((st.chunks ++ [c]).map List.length).sum
                  + (rest.map List.length).sum = m.size
              simp only [List.map_append, List.sum_append, List.map_cons,
                List.sum_cons, List.map_nil, List.sum_nil] at hsum ⊢
              omega)
        simpa [processMessages, List.append_assoc, hm] using this

/-! ## Claims about the receive-side transfer protocol -/

/-- Claim C2, counterexample: chunks totaling exactly the declared size
can make the completion event fire twice.  With declared size 1, a 1-byte
chunk followed by a 0-byte chunk totals exactly 1 byte, yet two completion
events are emitted, because the transfer state is not cleared when the
threshold is reached. -/
theorem transfer_completion_refires_on_empty_chunk :
    ((([[7], []] : List (List Nat)).map List.length).sum = 1) ∧
    (processMessages initReceiver
        [.fileMeta ⟨"f", 1⟩, .binary [7], .binary []]).downloads.length = 2 :=
  ⟨rfl, rfl⟩

/-- Claim C2 (amended): for every inbound transfer in which, after a
file-meta message declaring size `m.size`, at least one binary chunk
arrives, every chunk is nonempty, and the chunks total exactly `m.size`
bytes, the reassembled payload delivered equals bit-for-bit the
concatenation of the chunks in arrival order, and the completion event
fires exactly once for that transfer.  (The nonemptiness proviso is forced
by the counterexample: a trailing zero-byte chunk re-fires completion.) -/
theorem transfer_reassembly_exact (st : ReceiverState) (m : FileMeta)
    (cs : List (List Nat)) (h1 : cs ≠ []) (h2 : ∀ c ∈ cs, c ≠ [])
    (h3 : (cs.map List.length).sum = m.size) :
    (processMessages st (DCMessage.fileMeta m :: cs.map DCMessage.binary)).downloads
      = st.downloads ++ [(m.name, cs.flatten)] := by
  have step :
      processMessages st (DCMessage.fileMeta m :: cs.map DCMessage.binary)
        = processMessages (handleDataChannelMessage st (.fileMeta m))
            (cs.map DCMessage.binary) := rfl
  rw [step]
  have := processBinary_completes cs
      (handleDataChannelMessage st (.fileMeta m)) m rfl h1 h2
      (by simp [handleDataChannelMessage, h3])
  simpa [handleDataChannelMessage] using this

/-- Claim C2 witness: a concrete two-chunk transfer of declared size 2. -/
theorem transfer_reassembly_exact_w :
    (processMessages initReceiver
        [DCMessage.fileMeta ⟨"f", 2⟩, .binary [10], .binary [20]]).downloads
      = [("f", [10, 20])] := by
  have h := transfer_reassembly_exact initReceiver ⟨"f", 2⟩ [[10], [20]]
    (by simp) (by simp) (by simp)
  simpa [initReceiver] using h

/-- Claim C4, counterexample: after a completed transfer (declared size 2,
one 2-byte chunk) the metadata is still in effect, and a later binary
frame IS appended to the completed transfer and fires its completion a
second time — the in-flight state is not consumed at the threshold. -/
theorem completion_state_not_cleared :
    (processMessages initReceiver
        [.fileMeta ⟨"g", 2⟩, .binary [1, 2]]).downloads.length = 1 ∧
    (processMessages initReceiver
        [.fileMeta ⟨"g", 2⟩, .binary [1, 2]]).meta = some ⟨"g", 2⟩ ∧
    (handleDataChannelMessage
        (processMessages initReceiver [.fileMeta ⟨"g", 2⟩, .binary [1, 2]])
        (.binary [3])).chunks = [[1, 2], [3]] ∧
    (handleDataChannelMessage
        (processMessages initReceiver [.fileMeta ⟨"g", 2⟩, .binary [1, 2]])
        (.binary [3])).downloads.length = 2 :=
  ⟨rfl, rfl, rfl, rfl⟩

/-- Claim C4 (amended): the in-flight transfer state is NOT cleared when
the accumulated bytes reach the declared size — the metadata and the chunk
buffer persist, so any later binary frame is appended to the completed
transfer and fires the completion event again (with the extra bytes
included); only a subsequent file-meta message resets the state. -/
theorem completion_state_persists (st : ReceiverState) (m : FileMeta)
    (b : List Nat) (h1 : st.meta = some m)
    (h2 : m.size ≤ (st.chunks.map List.length).sum) :
    handleDataChannelMessage st (.binary b)
      = { st with chunks := st.chunks ++ [b],
                  downloads := st.downloads
                    ++ [(m.name, (st.chunks ++ [b]).flatten)],
                  messages := st.messages
                    ++ ["System: File " ++ m.name ++ " received."] } := by
  have hfire : m.size ≤ ((st.chunks ++ [b]).map List.length).sum := by
    simp only [List.map_append, List.sum_append]
    omega
  simp only [handleDataChannelMessage, h1]
  rw [if_pos hfire]

/-- Claim C4 witness: a completed 1-byte transfer absorbs a further binary
frame and re-fires. -/
theorem completion_state_persists_w :
    handleDataChannelMessage ⟨some ⟨"h", 1⟩, [[9]], [], [("h", [9])]⟩
        (.binary [8])
      = ⟨some ⟨"h", 1⟩, [[9], [8]], ["System: File h received."],
         [("h", [9]), ("h", [9, 8])]⟩ := by
  have h := completion_state_persists ⟨some ⟨"h", 1⟩, [[9]], [], [("h", [9])]⟩
    ⟨"h", 1⟩ [8] rfl (by simp)
  simpa using h

/-- Claim C5: a second file-meta message arriving at any point replaces
the tracked metadata, resets the chunk buffer to empty (discarding the
first transfer's partial chunks), and emits no completion event, so no
completion ever fires for the discarded transfer. -/
theorem file_meta_discards_incomplete (st : ReceiverState)
    (m1 m2 : FileMeta) (_h1 : st.meta = some m1)
    (_h2 : (st.chunks.map List.length).sum < m1.size) :
    (handleDataChannelMessage st (.fileMeta m2)).meta = some m2 ∧
    (handleDataChannelMessage st (.fileMeta m2)).chunks = [] ∧
    (handleDataChannelMessage st (.fileMeta m2)).downloads = st.downloads := by
  refine ⟨?_, ?_, ?_⟩ <;> simp [handleDataChannelMessage]

/-- Claim C5 witness: an incomplete 5-byte transfer with one 1-byte chunk
is discarded by a second file-meta. -/
theorem file_meta_discards_incomplete_w :
    (handleDataChannelMessage ⟨some ⟨"a", 5⟩, [[1]], [], []⟩
        (.fileMeta ⟨"b", 2⟩)).meta = some ⟨"b", 2⟩ ∧
    (handleDataChannelMessage ⟨some ⟨"a", 5⟩, [[1]], [], []⟩
        (.fileMeta ⟨"b", 2⟩)).chunks = [] ∧
    (handleDataChannelMessage ⟨some ⟨"a", 5⟩, [[1]], [], []⟩
        (.fileMeta ⟨"b", 2⟩)).downloads = [] :=
  file_meta_discards_incomplete ⟨some ⟨"a", 5⟩, [[1]], [], []⟩
    ⟨"a", 5⟩ ⟨"b", 2⟩ rfl (by simp)

/-- Claim C10: a binary frame arriving while no file-meta is in effect is
silently dropped — the full receiver state (chunks, logs, downloads) is
unchanged. -/
theorem binary_without_meta_dropped (st : ReceiverState) (b : List Nat)
    (h : st.meta = none) :
    handleDataChannelMessage st (.binary b) = st := by
  simp [handleDataChannelMessage, h]

/-- Claim C10 witness: a binary frame on the initial state is a no-op. -/
theorem binary_without_meta_dropped_w :
    handleDataChannelMessage initReceiver (.binary [1, 2, 3]) = initReceiver :=
  binary_without_meta_dropped initReceiver [1, 2, 3] rfl

/-! ## Claims about the Session Controller -/

/-- Claim C3, counterexample: while sharing, a duplicate
`user-connected("P1")` event triggers a second `startCall("P1")` — the
membership test guards only the peer list, not the call.  Two events for
the same id produce two call invocations. -/
theorem duplicate_user_connected_recalls :
    (handleUserConnected
        (handleUserConnected ⟨[], true, [], "", []⟩ "P1") "P1").calls
      = ["P1", "P1"] ∧
    (handleUserConnected
        (handleUserConnected ⟨[], true, [], "", []⟩ "P1") "P1").peers
      = ["P1"] := by
  constructor <;> rfl

/-- Claim C3 (amended): while sharing, the Session Controller calls
`startCall(P)` once per `user-connected(P)` event — so a duplicate event
for the same id triggers a second call (the duplicated call reuses the
registered connection object, see claim C1); only the peer list itself is
deduplicated. -/
theorem user_connected_calls_every_event (st : SessionState) (id : String)
    (h : st.isSharing = true) :
    (handleUserConnected st id).calls = st.calls ++ [id] ∧
    (id ∈ st.peers → (handleUserConnected st id).peers = st.peers) ∧
    (id ∉ st.peers → (handleUserConnected st id).peers = st.peers ++ [id]) := by
  refine ⟨by simp [handleUserConnected, h], ?_, ?_⟩ <;>
    intro hm <;> simp [handleUserConnected, hm]

/-- Claim C3 witness: one connected peer, one event, one call. -/
theorem user_connected_calls_every_event_w :
    (handleUserConnected ⟨["Q"], true, [], "", []⟩ "Q").calls = ["Q"] ∧
    (handleUserConnected ⟨["Q"], true, [], "", []⟩ "Q").peers = ["Q"] := by
  have h := user_connected_calls_every_event ⟨["Q"], true, [], "", []⟩ "Q" rfl
  exact ⟨by simpa using h.1, by simpa using h.2.1 (by simp)⟩

/-- Claim C8: `update-user-list` fully replaces the known peer set with
the payload's ids minus the local id: after payload `[A, B]` followed by
payload `[B]`, the peer set is exactly `["B"]` (so `"A"` is gone), and the
`startCall` fan-out performed on starting to share targets only `"B"`. -/
theorem update_user_list_full_replace (st : SessionState)
    (selfId ipA ipB : String) (_hA : selfId ≠ "A") (hB : selfId ≠ "B")
    (hs : st.isSharing = false) :
    (handleUpdateUserList (handleUpdateUserList st selfId
        [⟨"A", ipA⟩, ⟨"B", ipB⟩]) selfId [⟨"B", ipB⟩]).peers = ["B"] ∧
    "A" ∉ (handleUpdateUserList (handleUpdateUserList st selfId
        [⟨"A", ipA⟩, ⟨"B", ipB⟩]) selfId [⟨"B", ipB⟩]).peers ∧
    (startScreenShare (handleUpdateUserList (handleUpdateUserList st selfId
        [⟨"A", ipA⟩, ⟨"B", ipB⟩]) selfId [⟨"B", ipB⟩]) true).calls
      = st.calls ++ ["B"] := by
  have hB' : ("B" : String) ≠ selfId := fun e => hB e.symm
  refine ⟨?_, ?_, ?_⟩
  · simp [handleUpdateUserList, hB']
  · simp [handleUpdateUserList, hB']
  · simp [handleUpdateUserList, startScreenShare, hB', hs]

/-- Claim C8 witness: the scenario run from the initial session state with
local id `"S"`. -/
theorem update_user_list_full_replace_w :
    (handleUpdateUserList (handleUpdateUserList initSession "S"
        [⟨"A", "ip1"⟩, ⟨"B", "ip2"⟩]) "S" [⟨"B", "ip2"⟩]).peers = ["B"] ∧
    (startScreenShare (handleUpdateUserList (handleUpdateUserList initSession
        "S" [⟨"A", "ip1"⟩, ⟨"B", "ip2"⟩]) "S" [⟨"B", "ip2"⟩]) true).calls
      = ["B"] := by
  have h := update_user_list_full_replace initSession "S" "ip1" "ip2"
    (by decide) (by decide) rfl
  exact ⟨h.1, by simpa [initSession] using h.2.2⟩

/-! ## Claims about the send side -/

lemma map_fixed_of_mem {α : Type} (l : List α) (f : α → α)
    (h : ∀ x ∈ l, f x = x) : l.map f = l := by
  induction l with
  | nil => rfl
  | cons a rest ih =>
      simp only [List.map_cons, h a (by simp), ih (fun x hx => h x (by simp [hx]))]

/-- Claim C6: a chat send with zero open channels appends nothing to the
local message log, leaves the input box and every channel untouched, and
returns `sent = false` (the distinguishable "not sent" outcome); and
whenever the send does append to the log, at least one channel was open
and accepted the payload. -/
theorem send_message_requires_open_channel (channels : List DataChannel)
    (st : ChatState) :
    ((∀ dc ∈ channels, dc.readyState ≠ "open") →
        sendMessage channels st = (channels, st, false)) ∧
    ((sendMessage channels st).2.1.messages ≠ st.messages →
        ∃ dc ∈ channels, dc.readyState = "open") := by
  constructor
  · intro h
    have hany : channels.any (fun dc => dc.readyState = "open") = false := by
      simp only [List.any_eq_false, decide_eq_true_eq]
      exact h
    have hmap : channels.map (fun dc =>
        if dc.readyState = "open" then
          { dc with outbox := dc.outbox ++ [DCMessage.chat st.messageInput] }
        else dc) = channels :=
      map_fixed_of_mem _ _ (fun dc hdc => if_neg (h dc hdc))
    simp [sendMessage, hany, hmap]
  · intro hne
    rcases hany : channels.any (fun dc => dc.readyState = "open") with _ | _
    · exfalso
      apply hne
      simp [sendMessage, hany]
    · have := List.any_eq_true.mp hany
      simpa using this

/-- Claim C6 witness: one non-open channel, nothing is sent or logged. -/
theorem send_message_requires_open_channel_w :
    sendMessage [⟨"connecting", []⟩] ⟨[], "hello"⟩
      = ([⟨"connecting", []⟩], ⟨[], "hello"⟩, false) :=
  (send_message_requires_open_channel [⟨"connecting", []⟩] ⟨[], "hello"⟩).1
    (by simp)

/-! ## Claims about the Peer Connection Manager -/

lemma findPC_append (l : List (String × PC)) (i : String) (p : PC)
    (id : String) :
    findPC (l ++ [(i, p)]) id
      = match findPC l id with
        | some q => some q
        | none => if i = id then some p else none := by
  induction l with
  | nil => simp [findPC]
  | cons hd tl ih =>
      obtain ⟨a, b⟩ := hd
      by_cases hai : a = id
      · simp [findPC, hai]
      · simp only [List.cons_append, findPC, if_neg hai]
        exact ih

lemma countKey_append (l : List (String × PC)) (i : String) (p : PC)
    (id : String) :
    countKey id (l ++ [(i, p)])
      = countKey id l + (if i = id then 1 else 0) := by
  induction l with
  | nil => simp [countKey]
  | cons hd tl ih =>
      obtain ⟨a, b⟩ := hd
      show countKey id ((a, b) :: (tl ++ [(i, p)])) = _
      rw [countKey, ih, countKey]
      omega

lemma countKey_zero_of_findPC_none (l : List (String × PC)) (id : String)
    (h : findPC l id = none) : countKey id l = 0 := by
  induction l with
  | nil => rfl
  | cons hd tl ih =>
      by_cases hai : hd.1 = id
      · rw [show hd = (hd.1, hd.2) from rfl, findPC] at h
        simp [hai] at h
      · rw [show hd = (hd.1, hd.2) from rfl, findPC] at h
        simp only [if_neg hai] at h
        simp [countKey, hai, ih h]

/-- Over any request trace, a construction for `id` is logged exactly when
`id` is requested and not yet registered. -/
lemma runCreates_count (trace : List String) :
    ∀ (st : ManagerState) (id : String),
      countOcc id (runCreates st trace).2
        = if findPC st.conns id = none ∧ id ∈ trace then 1 else 0 := by
  induction trace with
  | nil => intro st id; simp [runCreates, countOcc]
  | cons t rest ih =>
      intro st id
      rcases hf : findPC st.conns t with _ | pc
      · -- `t` not yet registered: a construction happens
        have hrun : runCreates st (t :: rest)
            = ((runCreates ⟨st.conns ++ [(t, newPC st.nextHandle)],
                  st.nextHandle + 1⟩ rest).1,
               t :: (runCreates ⟨st.conns ++ [(t, newPC st.nextHandle)],
                  st.nextHandle + 1⟩ rest).2) := by
          simp [runCreates, createPeerConnection, hf]
        rw [hrun]
        by_cases hit : id = t
        · subst hit
          have hf' : findPC (st.conns ++ [(id, newPC st.nextHandle)]) id
              = some (newPC st.nextHandle) := by
            rw [findPC_append, hf]; simp
          rw [countOcc, if_pos rfl]
          rw [ih ⟨st.conns ++ [(id, newPC st.nextHandle)],
              st.nextHandle + 1⟩ id]
          simp [hf', hf]
        · have hf' : findPC (st.conns ++ [(t, newPC st.nextHandle)]) id
              = findPC st.conns id := by
            rw [findPC_append]
            rcases h : findPC st.conns id with _ | q
            · have hti : ¬ t = id := fun e => hit e.symm
              simp [hti]
            · simp
          rw [countOcc, if_neg (fun e => hit e.symm)]
          rw [ih ⟨st.conns ++ [(t, newPC st.nextHandle)],
              st.nextHandle + 1⟩ id]
          simp only [hf', Nat.zero_add]
          by_cases hmem : id ∈ rest
          · simp [hmem, hit]
          · simp [hmem, hit]
      · -- `t` already registered: no construction, state unchanged
        have hrun : runCreates st (t :: rest)
            = ((runCreates st rest).1, (runCreates st rest).2) := by
          simp [runCreates, createPeerConnection, hf]
        rw [hrun]
        rw [ih st id]
        by_cases hit : id = t
        · subst hit
          simp [hf]
        · by_cases hmem : id ∈ rest
          · simp [hmem, hit]
          · simp [hmem, hit]

/-- Registration preserves the at-most-one-entry-per-id bound. -/
lemma runCreates_at_most_one (trace : List String) :
    ∀ (st : ManagerState),
      (∀ id, countKey id st.conns ≤ 1) →
      ∀ id, countKey id (runCreates st trace).1.conns ≤ 1 := by
  induction trace with
  | nil => intro st h id; exact h id
  | cons t rest ih =>
      intro st h id
      rcases hf : findPC st.conns t with _ | pc
      · have hrun : (runCreates st (t :: rest)).1
            = (runCreates ⟨st.conns ++ [(t, newPC st.nextHandle)],
                st.nextHandle + 1⟩ rest).1 := by
          simp [runCreates, createPeerConnection, hf]
        rw [hrun]
        refine ih _ (fun j => ?_) id
        rw [countKey_append]
        by_cases hjt : t = j
        · subst hjt
          have := countKey_zero_of_findPC_none st.conns t hf
          simp [this]
        · simp only [if_neg hjt]
          have := h j
          omega
      · have hrun : (runCreates st (t :: rest)).1 = (runCreates st rest).1 := by
          simp [runCreates, createPeerConnection, hf]
        rw [hrun]
        exact ih st h id

/-- Claim C1: over any sequence of `createPeerConnection` requests from
the initial (empty) manager state, exactly one connection object is ever
constructed per requested id (and none for ids never requested), the
registry never holds more than one entry per id, and any call for an
already-registered id returns the registered object and leaves the state
completely unchanged. -/
theorem create_peer_connection_unique_per_id (trace : List String)
    (id : String) :
    countOcc id (runCreates initManager trace).2
      = (if id ∈ trace then 1 else 0) ∧
    countKey id (runCreates initManager trace).1.conns ≤ 1 ∧
    (∀ (st : ManagerState) (pc : PC), findPC st.conns id = some pc →
        createPeerConnection st id = (pc, false, st)) := by
  refine ⟨?_, ?_, ?_⟩
  · have h := runCreates_count trace initManager id
    simpa [initManager, findPC] using h
  · exact runCreates_at_most_one trace initManager
      (fun j => by simp [initManager, countKey]) id
  · intro st pc h
    simp [createPeerConnection, h]

/-- Claim C1 witness: the trace `["A", "B", "A"]` constructs exactly one
connection for `"A"`, and a repeated request on a registered state is a
pure read. -/
theorem create_peer_connection_unique_per_id_w :
    countOcc "A" (runCreates initManager ["A", "B", "A"]).2 = 1 ∧
    countKey "A" (runCreates initManager ["A", "B", "A"]).1.conns ≤ 1 ∧
    createPeerConnection ⟨[("A", newPC 0)], 1⟩ "A"
      = (newPC 0, false, ⟨[("A", newPC 0)], 1⟩) := by
  obtain ⟨h1, h2, h3⟩ := create_peer_connection_unique_per_id ["A", "B", "A"] "A"
  exact ⟨by simpa using h1, h2, h3 ⟨[("A", newPC 0)], 1⟩ (newPC 0) rfl⟩

/-- Number of tracked connections currently in the `have-local-offer`
signaling state. -/
def countHLO : List (String × PC) → Nat
  | [] => 0
  | (_, p) :: rest =>
      (if p.signalingState = SignalingState.haveLocalOffer then 1 else 0)
        + countHLO rest

/-- The per-entry effect of the fallback with a unique outstanding offer:
the `have-local-offer` entry absorbs the answer, everything else is kept
as is. -/
def answerToHLO (sdp : String) (e : String × PC) : String × PC :=
  if e.2.signalingState = SignalingState.haveLocalOffer then
    (e.1, setRemoteAnswer e.2 sdp)
  else e

lemma applyAnswerFallback_of_none (sdp : String) :
    ∀ (l : List (String × PC)), countHLO l = 0 →
      applyAnswerFallback sdp l = l := by
  intro l
  induction l with
  | nil => intro _; rfl
  | cons hd tl ih =>
      obtain ⟨a, b⟩ := hd
      intro h
      rw [countHLO] at h
      by_cases hbs : b.signalingState = SignalingState.haveLocalOffer
      · rw [if_pos hbs] at h; omega
      · rw [if_neg hbs] at h
        rw [applyAnswerFallback, if_neg hbs, ih (by omega)]

lemma map_answerToHLO_of_none (sdp : String) :
    ∀ (l : List (String × PC)), countHLO l = 0 →
      l.map (answerToHLO sdp) = l := by
  intro l
  induction l with
  | nil => intro _; rfl
  | cons hd tl ih =>
      obtain ⟨a, b⟩ := hd
      intro h
      rw [countHLO] at h
      by_cases hbs : b.signalingState = SignalingState.haveLocalOffer
      · rw [if_pos hbs] at h; omega
      · rw [if_neg hbs] at h
        simp only [List.map_cons, answerToHLO, if_neg hbs, ih (by omega)]

lemma applyAnswerFallback_of_one (sdp : String) :
    ∀ (l : List (String × PC)), countHLO l = 1 →
      applyAnswerFallback sdp l = l.map (answerToHLO sdp) := by
  intro l
  induction l with
  | nil => intro h; rw [countHLO] at h; omega
  | cons hd tl ih =>
      obtain ⟨a, b⟩ := hd
      intro h
      rw [countHLO] at h
      by_cases hbs : b.signalingState = SignalingState.haveLocalOffer
      · rw [if_pos hbs] at h
        have htl : countHLO tl = 0 := by omega
        rw [applyAnswerFallback, if_pos hbs]
        simp only [List.map_cons, answerToHLO, if_pos hbs,
          map_answerToHLO_of_none sdp tl htl]
      · rw [if_neg hbs] at h
        rw [applyAnswerFallback, if_neg hbs, ih (by omega)]
        simp only [List.map_cons, answerToHLO, if_neg hbs]

lemma countHLO_map_answerToHLO (sdp : String) (l : List (String × PC)) :
    countHLO (l.map (answerToHLO sdp)) = 0 := by
  induction l with
  | nil => rfl
  | cons hd tl ih =>
      obtain ⟨a, b⟩ := hd
      by_cases hbs : b.signalingState = SignalingState.haveLocalOffer
      · have he : answerToHLO sdp (a, b) = (a, setRemoteAnswer b sdp) := by
          simp [answerToHLO, hbs]
        rw [List.map_cons, he, countHLO, ih]
        simp [setRemoteAnswer]
      · have he : answerToHLO sdp (a, b) = (a, b) := by
          simp [answerToHLO, hbs]
        rw [List.map_cons, he, countHLO, ih]
        simp [hbs]

/-- Claim C7: when the sender of an answer cannot be resolved to any
tracked connection and exactly one tracked connection is in
`have-local-offer`, `handleReceiveAnswer` applies the answer (as remote
description) to exactly that connection, transitioning it to `stable`,
and leaves every other tracked connection unchanged; afterwards no
connection is left in `have-local-offer`. -/
theorem answer_unresolved_fallback (conns : List (String × PC))
    (callerId : Option String) (sdp : String)
    (hres : ∀ cid, callerId = some cid → findPC conns cid = none)
    (hone : countHLO conns = 1) :
    handleReceiveAnswer conns callerId sdp = conns.map (answerToHLO sdp) ∧
    countHLO (handleReceiveAnswer conns callerId sdp) = 0 := by
  have hfall : handleReceiveAnswer conns callerId sdp
      = applyAnswerFallback sdp conns := by
    rcases callerId with _ | cid
    · rfl
    · have := hres cid rfl
      simp [handleReceiveAnswer, this]
  have hmap := applyAnswerFallback_of_one sdp conns hone
  refine ⟨hfall.trans hmap, ?_⟩
  rw [hfall, hmap]
  exact countHLO_map_answerToHLO sdp conns

/-- Claim C7 witness: two tracked connections, only `"Y"` has an
outstanding offer; an answer with no usable sender id lands on `"Y"`,
which becomes `stable`, while `"X"` is untouched. -/
theorem answer_unresolved_fallback_w :
    handleReceiveAnswer
        [("X", ⟨0, .stable, none⟩), ("Y", ⟨1, .haveLocalOffer, none⟩)]
        none "v=0"
      = [("X", ⟨0, .stable, none⟩), ("Y", ⟨1, .stable, some "v=0"⟩)] := by
  have h := answer_unresolved_fallback
      [("X", ⟨0, .stable, none⟩), ("Y", ⟨1, .haveLocalOffer, none⟩)]
      none "v=0" (fun cid hc => by cases hc) (by rfl)
  rw [h.1]
  rfl

/-! ## Claim C9: file send -/

lemma chunkFile_eq_nil_iff (l : List Nat) : chunkFile l = [] ↔ l = [] := by
  cases l with
  | nil => simp [chunkFile]
  | cons b rest => simp [chunkFile]

lemma chunkFile_flatten_aux :
    ∀ (n : Nat) (l : List Nat), l.length ≤ n → (chunkFile l).flatten = l := by
  intro n
  induction n with
  | zero =>
      intro l hl
      have hz : l = [] := by
        cases l with
        | nil => rfl
        | cons a t => simp at hl
      subst hz
      simp [chunkFile]
  | succ n ih =>
      intro l hl
      cases l with
      | nil => simp [chunkFile]
      | cons b rest =>
          simp only [chunkFile, List.flatten_cons]
          rw [ih ((b :: rest).drop 16384)
            (by simp only [List.length_drop, List.length_cons]
                simp only [List.length_cons] at hl
                omega)]
          exact List.take_append_drop _ _

lemma chunkFile_flatten (l : List Nat) : (chunkFile l).flatten = l :=
  chunkFile_flatten_aux l.length l le_rfl

lemma chunkFile_small (l : List Nat) (h1 : l ≠ []) (h2 : l.length ≤ 16384) :
    chunkFile l = [l] := by
  cases l with
  | nil => cases h1 rfl
  | cons b rest =>
      have ht : (b :: rest).take 16384 = b :: rest := List.take_of_length_le h2
      have hd : (b :: rest).drop 16384 = [] := List.drop_eq_nil_of_le h2
      simp only [chunkFile, ht, hd]

lemma chunkFile_bounds_aux :
    ∀ (n : Nat) (l : List Nat), l.length ≤ n →
      ∀ c ∈ chunkFile l, c ≠ [] ∧ c.length ≤ 16384 := by
  intro n
  induction n with
  | zero =>
      intro l hl c hc
      have hz : l = [] := by
        cases l with
        | nil => rfl
        | cons a t => simp at hl
      subst hz
      simp [chunkFile] at hc
  | succ n ih =>
      intro l hl c hc
      cases l with
      | nil => simp [chunkFile] at hc
      | cons b rest =>
          simp only [chunkFile] at hc
          rcases List.mem_cons.mp hc with hc | hc
          · subst hc
            constructor
            · have : 0 < ((b :: rest).take 16384).length := by
                rw [List.length_take, List.length_cons]
                omega
              exact List.length_pos.mp this
            · rw [List.length_take]
              omega
          · exact ih ((b :: rest).drop 16384)
              (by simp only [List.length_drop, List.length_cons]
                  simp only [List.length_cons] at hl
                  omega) c hc

lemma chunkFile_dropLast_aux :
    ∀ (n : Nat) (l : List Nat), l.length ≤ n →
      ∀ c ∈ (chunkFile l).dropLast, c.length = 16384 := by
  intro n
  induction n with
  | zero =>
      intro l hl c hc
      have hz : l = [] := by
        cases l with
        | nil => rfl
        | cons a t => simp at hl
      subst hz
      simp [chunkFile] at hc
  | succ n ih =>
      intro l hl c hc
      cases l with
      | nil => simp [chunkFile] at hc
      | cons b rest =>
          simp only [chunkFile] at hc
          by_cases hd : (b :: rest).drop 16384 = []
          · rw [(chunkFile_eq_nil_iff _).mpr hd] at hc
            simp at hc
          · have hne : chunkFile ((b :: rest).drop 16384) ≠ [] :=
              fun e => hd ((chunkFile_eq_nil_iff _).mp e)
            obtain ⟨c1, R, hcr⟩ := List.exists_cons_of_ne_nil hne
            rw [hcr, List.dropLast_cons₂] at hc
            rcases List.mem_cons.mp hc with hc | hc
            · subst hc
              have hlen : 16384 < (b :: rest).length := by
                by_contra hcon
                exact hd (List.drop_eq_nil_of_le (by omega))
              rw [List.length_take]
              omega
            · have := ih ((b :: rest).drop 16384)
                (by simp only [List.length_drop, List.length_cons]
                    simp only [List.length_cons] at hl
                    omega) c
              rw [hcr] at this
              exact this hc

lemma findFirstOpen_spec :
    ∀ (channels : List DataChannel) (i : Nat),
      findFirstOpen channels = some i →
      (∃ dc, channels[i]? = some dc ∧ dc.readyState = "open") ∧
      (∀ j, j < i → ∀ dc, channels[j]? = some dc → dc.readyState ≠ "open") := by
  intro channels
  induction channels with
  | nil => intro i h; simp [findFirstOpen] at h
  | cons dc rest ih =>
      intro i h
      rw [findFirstOpen] at h
      by_cases hdc : dc.readyState = "open"
      · rw [if_pos hdc] at h
        have hi : i = 0 := by
          have := Option.some.inj h
          omega
        subst hi
        refine ⟨⟨dc, by simp, hdc⟩, ?_⟩
        intro j hj
        omega
      · rw [if_neg hdc] at h
        rcases hr : findFirstOpen rest with _ | k
        · rw [hr] at h; simp at h
        · rw [hr] at h
          have hki : k + 1 = i := by simpa using h
          subst hki
          obtain ⟨⟨dcw, hdcw, hopen⟩, hbefore⟩ := ih k hr
          constructor
          · exact ⟨dcw, by simpa using hdcw, hopen⟩
          · intro j hj dc' hdc'
            cases j with
            | zero =>
                simp only [List.getElem?_cons_zero, Option.some.injEq] at hdc'
                subst hdc'
                exact hdc
            | succ j' =>
                refine hbefore j' (by omega) dc' ?_
                simpa using hdc'

lemma pushFrames_pushFrames :
    ∀ (chs : List DataChannel) (i : Nat) (a b : List DCMessage),
      pushFrames (pushFrames chs i a) i b = pushFrames chs i (a ++ b) := by
  intro chs
  induction chs with
  | nil => intro i a b; cases i <;> rfl
  | cons dc rest ih =>
      intro i a b
      cases i with
      | zero => simp [pushFrames, List.append_assoc]
      | succ n => simp [pushFrames, ih]

lemma pushFrames_getElem_ne :
    ∀ (chs : List DataChannel) (i : Nat) (fr : List DCMessage) (j : Nat),
      j ≠ i → (pushFrames chs i fr)[j]? = chs[j]? := by
  intro chs
  induction chs with
  | nil => intro i fr j _; cases i <;> rfl
  | cons dc rest ih =>
      intro i fr j hj
      cases i with
      | zero =>
          cases j with
          | zero => cases hj rfl
          | succ j' => simp [pushFrames]
      | succ n =>
          cases j with
          | zero => simp [pushFrames]
          | succ j' =>
              simp only [pushFrames, List.getElem?_cons_succ]
              exact ih n fr j' (fun e => hj (by omega))

lemma pushFrames_getElem_eq :
    ∀ (chs : List DataChannel) (i : Nat) (fr : List DCMessage),
      (pushFrames chs i fr)[i]?
        = (chs[i]?).map (fun dc => { dc with outbox := dc.outbox ++ fr }) := by
  intro chs
  induction chs with
  | nil => intro i fr; cases i <;> rfl
  | cons dc rest ih =>
      intro i fr
      cases i with
      | zero => simp [pushFrames]
      | succ n => simp [pushFrames, ih]

/-- Claim C9: with at least one open channel, `sendFile` emits the
metadata frame followed by the file's bytes split into successive 16 KiB
chunks (all full-size except possibly the last, none empty, concatenating
bit-for-bit back to the file) on exactly the first open channel, leaving
every other channel's outbox untouched; with zero open channels it is a
no-op that fires the "Connection not ready." alert, sending and queueing
nothing. -/
theorem send_file_first_open_only (channels : List DataChannel)
    (messages : List String) (f : FileData) :
    (findFirstOpen channels = none →
        sendFile channels messages f = ⟨channels, messages, true⟩) ∧
    (∀ i, findFirstOpen channels = some i →
        sendFile channels messages f
          = ⟨pushFrames channels i (sendFileFrames f),
             messages ++ ["Me: Sending file " ++ f.name ++ "...",
               "Me: File sent."], false⟩
        ∧ (∃ dc, channels[i]? = some dc ∧ dc.readyState = "open")
        ∧ (∀ j, j < i → ∀ dc, channels[j]? = some dc →
              dc.readyState ≠ "open")
        ∧ (∀ j, j ≠ i →
              (pushFrames channels i (sendFileFrames f))[j]? = channels[j]?)
        ∧ (pushFrames channels i (sendFileFrames f))[i]?
            = (channels[i]?).map
                (fun dc => { dc with outbox := dc.outbox ++ sendFileFrames f })) ∧
    ((chunkFile f.bytes).flatten = f.bytes) ∧
    (∀ c ∈ chunkFile f.bytes, c ≠ [] ∧ c.length ≤ 16384) ∧
    (∀ c ∈ (chunkFile f.bytes).dropLast, c.length = 16384) := by
  refine ⟨?_, ?_, chunkFile_flatten f.bytes,
    chunkFile_bounds_aux f.bytes.length f.bytes le_rfl,
    chunkFile_dropLast_aux f.bytes.length f.bytes le_rfl⟩
  · intro h
    simp [sendFile, h]
  · intro i h
    obtain ⟨hopen, hbefore⟩ := findFirstOpen_spec channels i h
    refine ⟨?_, hopen, hbefore,
      fun j hj => pushFrames_getElem_ne channels i (sendFileFrames f) j hj,
      pushFrames_getElem_eq channels i (sendFileFrames f)⟩
    simp only [sendFile, h, pushFrames_pushFrames, sendFileFrames]
    simp [List.append_assoc]

/-- Claim C9 witness: two channels, only the second open; a 2-byte file is
sent as one metadata frame plus one chunk on that channel only. -/
theorem send_file_first_open_only_w :
    sendFile [⟨"closed", []⟩, ⟨"open", []⟩] [] ⟨"f", [1, 2]⟩
      = ⟨[⟨"closed", []⟩,
          ⟨"open", [DCMessage.fileMeta ⟨"f", 2⟩, DCMessage.binary [1, 2]]⟩],
         ["Me: Sending file f...", "Me: File sent."], false⟩ := by
  have h := (send_file_first_open_only [⟨"closed", []⟩, ⟨"open", []⟩]
      [] ⟨"f", [1, 2]⟩).2.1 1 (by rfl)
  rw [h.1]
  have hc : chunkFile [1, 2] = [[1, 2]] :=
    chunkFile_small [1, 2] (by simp) (by simp)
  simp [pushFrames, sendFileFrames, hc]

end ScreenShare
